import Mathlib

/-!
Verification of the action-plan execution engine of `aiwe-client`
(`src/lib/aiwe-bot/index.ts`, with the historical linearizer variant in
`src/lib/aiwe-bot/utils.ts`).

The engine operates on loosely typed JSON-like data.  We embed JSON values
as the inductive type `Value`; JavaScript `Map`s become association lists;
the remote backends (axios calls, OpenAI escalation dialogue) are
parameters of the model: the backend is a function from action id, resolved
parameters and attempt number to an outcome, and the escalation oracle is a
finite script of decisions consumed one per escalation.
-/

/-- A JSON-like runtime value (JavaScript values as they occur in the
engine).  `undefined` is represented by `Option.none` at use sites. -/
inductive Value where
  | null : Value
  | bool : Bool → Value
  | num : Int → Value
  | str : String → Value
  | arr : List Value → Value
  | obj : List (String × Value) → Value

/-- JavaScript truthiness of a defined value (`!v` is `!(jsTruthy v)`).
`0`, `false`, the empty string and `null` are falsy; objects and arrays
are always truthy. -/
def jsTruthy : Value → Bool
  | Value.null => false
  | Value.bool b => b
  | Value.num n => n != 0
  | Value.str s => s != ""
  | Value.arr _ => true
  | Value.obj _ => true

/-- Association-list lookup, first match wins: models `Map.get` /
JavaScript property lookup (keys are unique in the maps the engine
builds, so first-match is exact). `none` models `undefined`. -/
def alookup (k : String) : List (String × Value) → Option Value
  | [] => none
  | (k', v) :: rest => if k' == k then some v else alookup k rest

/-- Models `Map.set k v`: replace the binding if the key is present,
otherwise append. -/
def mset (k : String) (v : Value) : List (String × Value) → List (String × Value)
  | [] => [(k, v)]
  | (k', v') :: rest => if k' == k then (k, v) :: rest else (k', v') :: mset k v rest

/-- Models `Map.has k`. -/
def mhas (k : String) (m : List (String × Value)) : Bool :=
  (alookup k m).isSome

/-- List membership for strings, used for the `Set<string>` of available
output keys (`availableOutputs.has`). -/
def elemStr (k : String) : List String → Bool
  | [] => false
  | x :: rest => x == k || elemStr k rest

/-- Is `p` a prefix of `l` (character lists)? -/
def isPrefixL : List Char → List Char → Bool
  | [], _ => true
  | _ :: _, [] => false
  | a :: as, b :: bs => a == b && isPrefixL as bs

/-- Models JavaScript `s.startsWith(p)`. -/
def strStartsWith (s p : String) : Bool :=
  isPrefixL p.toList s.toList

/-- Drop the first `n` characters of a string. -/
def strDropL (s : String) (n : Nat) : String :=
  String.mk (s.toList.drop n)

/-- Is `c` one of the path delimiters of the regex `[.\x5b\x5d]+` used by
`resolveParameters` (dot, opening bracket, closing bracket)? -/
def isDelim (c : Char) : Bool :=
  c == '.' || c == '[' || c == ']'

/-- Split a character list at delimiter runs, dropping empty segments:
models `str.split(delimRegex).filter(Boolean)`. `cur` is the current
segment accumulated in reverse. -/
def splitPathAux : List Char → List Char → List String
  | [], cur => if cur.isEmpty then [] else [String.mk cur.reverse]
  | c :: rest, cur =>
    if isDelim c then
      if cur.isEmpty then splitPathAux rest []
      else String.mk cur.reverse :: splitPathAux rest []
    else splitPathAux rest (c :: cur)

/-- Path splitting of `resolveParameters`. -/
def splitPath (s : String) : List String :=
  splitPathAux s.toList []

/-- The sentinel prefix of an output reference. -/
def outRefPrefix : String := "$outputs."

/-- Does a parameter value trigger reference resolution?  Mirrors the test
`typeof value === 'string' && value.startsWith('$outputs.')`. -/
def isOutputRef : Value → Bool
  | Value.str s => strStartsWith s outRefPrefix
  | _ => false

/-- Parse a run of decimal digits (used for canonical array indices). -/
def parseDigitsAux : List Char → Nat → Option Nat
  | [], acc => some acc
  | c :: cs, acc =>
    if c.isDigit then parseDigitsAux cs (acc * 10 + (c.toNat - 48)) else none

/-- A canonical numeric index as JavaScript array/string access sees it:
`"0"`, or digits without a leading zero (`arr["00"]` is `undefined`). -/
def strCanonIndex (k : String) : Option Nat :=
  match k.toList with
  | [] => none
  | c :: cs =>
    if c == '0' then (if cs.isEmpty then some 0 else none)
    else parseDigitsAux (c :: cs) 0

/-- JavaScript property/index access `v[k]` for a defined, non-null `v`;
`none` models `undefined`.  Arrays answer canonical numeric indices and
`length`; strings answer canonical numeric indices (a one-character
string) and `length`, as in JavaScript. -/
def jsGet : Value → String → Option Value
  | Value.obj fields, k => alookup k fields
  | Value.arr vs, k =>
    if k == "length" then some (Value.num vs.length)
    else match strCanonIndex k with
      | some i => vs.get? i
      | none => none
  | Value.str s, k =>
    if k == "length" then some (Value.num s.length)
    else match strCanonIndex k with
      | some i => (s.toList.get? i).map (fun c => Value.str (String.mk [c]))
      | none => none
  | _, _ => none

/-- The error message for an unresolvable first path segment
(`missing required output`). -/
def missingOutputMsg (key seg : String) : String :=
  "Cannot resolve parameter " ++ key ++ ": missing required output " ++ seg

/-- The error message for an undefined intermediate path value
(`invalid path`). -/
def invalidPathMsg (key ref : String) : String :=
  "Cannot resolve parameter " ++ key ++ ": invalid path " ++ ref

/-- The inner loop of `resolveParameters`: walk the remaining path
segments with successive property accesses.  An undefined result raises
the `invalid path` error.  In JavaScript, accessing a property of `null`
throws a `TypeError` instead; that corner is modelled by the distinct
message below and is exercised by no claim. -/
def walkPath (key ref : String) : Value → List String → Except String Value
  | v, [] => Except.ok v
  | Value.null, seg :: _ =>
    Except.error ("TypeError: Cannot read properties of null (reading " ++ seg ++ ")")
  | v, seg :: rest =>
    match jsGet v seg with
    | none => Except.error (invalidPathMsg key ref)
    | some v' => walkPath key ref v' rest

/-- Resolve one parameter entry.  Mirrors the body of the `for` loop of
`resolveParameters`: a string value starting with `$outputs.` is stripped
of the prefix (the source uses `value.replace('$outputs.', '')`, which
replaces the first occurrence; under the `startsWith` guard that is
exactly the prefix, so it equals dropping 9 characters), split into path
segments, the first segment is looked up in the output store and checked
for truthiness, and the rest are applied as accesses.  An empty path
makes `path[0]` `undefined`, so the lookup misses and the message prints
`undefined`, as in JavaScript. -/
def resolveOneParam (key : String) (v : Value) (outputs : List (String × Value)) :
    Except String Value :=
  match v with
  | Value.str s =>
    if strStartsWith s outRefPrefix then
      match splitPath (strDropL s 9) with
      | [] => Except.error (missingOutputMsg key "undefined")
      | p0 :: rest =>
        match alookup p0 outputs with
        | none => Except.error (missingOutputMsg key p0)
        | some ov =>
          if jsTruthy ov then walkPath key s ov rest
          else Except.error (missingOutputMsg key p0)
    else Except.ok (Value.str s)
  | other => Except.ok other

/-- `resolveParameters(parameters, outputs)` from `index.ts` (lines
738-764): substitute `$outputs.`-references of a parameter map against
the output store, leaving all other values untouched. -/
def resolveParameters (parameters : List (String × Value))
    (outputs : List (String × Value)) : Except String (List (String × Value)) :=
  match parameters with
  | [] => Except.ok []
  | (k, v) :: rest =>
    match resolveOneParam k v outputs with
    | Except.error e => Except.error e
    | Except.ok rv =>
      match resolveParameters rest outputs with
      | Except.error e => Except.error e
      | Except.ok rs => Except.ok ((k, rv) :: rs)

/-- Generic association-list lookup (`Map.get` for non-`Value` maps). -/
def aget {α : Type} (k : String) : List (String × α) → Option α
  | [] => none
  | (k', v) :: rest => if k' == k then some v else aget k rest

/-- Generic `Map.set`. -/
def aset {α : Type} (k : String) (v : α) : List (String × α) → List (String × α)
  | [] => [(k, v)]
  | (k', v') :: rest => if k' == k then (k, v) :: rest else (k', v') :: aset k v rest

/-- Is `pat` a contiguous substring of `l`?  Models `str.includes(pat)`. -/
def containsSubL (pat : List Char) : List Char → Bool
  | [] => isPrefixL pat []
  | c :: rest => isPrefixL pat (c :: rest) || containsSubL pat rest

/-- Models JavaScript `s.includes(pat)`. -/
def strIncludes (s pat : String) : Bool :=
  containsSubL pat.toList s.toList

/-- Models `array.join(', ')`. -/
def joinComma : List String → String
  | [] => ""
  | [x] => x
  | x :: rest => x ++ ", " ++ joinComma rest

/-- One named authentication option of a capability catalog
(`{ name, headers? }`). -/
structure AuthOption where
  name : String
  headers : Option (List (String × String))

/-- The `authentication` descriptor of a catalog (`{ type, options }`). -/
structure AuthDescr where
  type : String
  options : List AuthOption

/-- Is a stored credential value missing or falsy?  `!savedCredentials[key]`
is true both when the key is absent (`undefined`) and when its value is
the empty string. -/
def credFalsy : Option String → Bool
  | none => true
  | some s => s == ""

/-- The `CredentialError` message built by `resolveAuthHeaders`. -/
def missingCredsMsg (service : String) (missing : List String) : String :=
  "Missing credentials for " ++ service ++ ":\n" ++
  "Required: " ++ joinComma missing ++ "\n" ++
  "Please provide these credentials when initializing the bot."

/-- `resolveAuthHeaders(service, authConfig)` from `index.ts` (lines
654-678).  `serviceCredentials` is the per-service credential map given
at construction time. -/
def resolveAuthHeaders (serviceCredentials : List (String × List (String × String)))
    (service : String) (authConfig : Option AuthDescr) :
    Except String (List (String × String)) :=
  match authConfig with
  | none => Except.ok []
  | some cfg =>
    if cfg.type == "" || cfg.type != "header" || cfg.options.isEmpty then Except.ok []
    else
      match cfg.options with
      | [] => Except.ok []
      | authOption :: _ =>
        let requiredHeaders := authOption.headers.getD []
        let savedCredentials := (aget service serviceCredentials).getD []
        let missingCredentials :=
          (requiredHeaders.map Prod.fst).filter
            (fun key => credFalsy (aget key savedCredentials))
        if missingCredentials.isEmpty then
          Except.ok (requiredHeaders.map
            (fun kv => (kv.1, (aget kv.1 savedCredentials).getD "")))
        else Except.error (missingCredsMsg service missingCredentials)

/-- The error rewriting of `executeAction`'s inner catch (lines 708-714):
an error whose message includes `Missing credentials` is rethrown as-is,
every other error is wrapped with the generic execution-failure text. -/
def wrapExecError (actionId service msg : String) : String :=
  if strIncludes msg "Missing credentials" then msg
  else "Failed to execute action " ++ actionId ++ " on " ++ service ++ ": " ++ msg

/-- JavaScript `typeof v === 'object'` (true for `null`, arrays and
objects). -/
def typeofObject : Value → Bool
  | Value.null => true
  | Value.arr _ => true
  | Value.obj _ => true
  | _ => false

/-- `Object.entries`: fields of an object, indexed elements of an array. -/
def entriesOf : Value → List (String × Value)
  | Value.obj fields => fields
  | Value.arr vs => vs.enum.map (fun iv => (Nat.repr iv.1, iv.2))
  | _ => []

/-- The JavaScript `in` operator restricted to the shapes the validator
meets. -/
def hasKeyIn : Value → String → Bool
  | Value.obj fields, k => elemStr k (fields.map Prod.fst)
  | Value.arr vs, k =>
    k == "length" ||
      (match strCanonIndex k with
       | some i => decide (i < vs.length)
       | none => false)
  | _, _ => false

/-- Is an optional value a string / boolean / array? -/
def isStrO : Option Value → Bool
  | some (Value.str _) => true
  | _ => false

def isBoolO : Option Value → Bool
  | some (Value.bool _) => true
  | _ => false

def isArrO : Option Value → Bool
  | some (Value.arr _) => true
  | _ => false

/-- Truthiness of a possibly-undefined value. -/
def truthyO : Option Value → Bool
  | some v => jsTruthy v
  | none => false

/-- Is an optional value the string `t`? -/
def strEqO : Option Value → String → Bool
  | some (Value.str s), t => s == t
  | _, _ => false

/-- Validation of one `items` entry of an array-typed parameter
(`isValidAIWEConfig`, inner `every`). -/
def isValidItemEntry (itemParam : Value) : Bool :=
  if !(jsTruthy itemParam) || !(typeofObject itemParam) then false
  else if !(isStrO (jsGet itemParam "type")) then false
  else if hasKeyIn itemParam "required" && !(isBoolO (jsGet itemParam "required")) then false
  else true

/-- Validation of one declared parameter (`isValidAIWEConfig`, middle
`every`).  When the parameter is array-typed with truthy `items` the
source returns the items check directly, skipping the `enum` check. -/
def isValidParamEntry (param : Value) : Bool :=
  if !(jsTruthy param) || !(typeofObject param) then false
  else if !(isStrO (jsGet param "type")) then false
  else if hasKeyIn param "required" && !(isBoolO (jsGet param "required")) then false
  else if strEqO (jsGet param "type") "array" && truthyO (jsGet param "items") then
    match jsGet param "items" with
    | some items =>
      if !(typeofObject items) then false
      else (entriesOf items).all (fun kv => isValidItemEntry kv.2)
    | none => false
  else if hasKeyIn param "enum" && !(isArrO (jsGet param "enum")) then false
  else true

/-- Validation of one declared action (`isValidAIWEConfig`, outer
`every`). -/
def isValidAction (action : Value) : Bool :=
  if !(isStrO (jsGet action "name")) || !(isStrO (jsGet action "description")) then false
  else if truthyO (jsGet action "parameters") then
    match jsGet action "parameters" with
    | some ps =>
      if !(typeofObject ps) then false
      else (entriesOf ps).all (fun kv => isValidParamEntry kv.2)
    | none => false
  else true

/-- `isValidAIWEConfig(config)` from `index.ts` (lines 361-412):
structural validation of a fetched capability manifest. -/
def isValidAIWEConfig (config : Value) : Bool :=
  if !(jsTruthy config) || !(typeofObject config) then false
  else if !(isStrO (jsGet config "service")) || !(isStrO (jsGet config "description"))
      || !(isArrO (jsGet config "actions")) then false
  else
    match jsGet config "actions" with
    | some (Value.arr acts) => acts.all isValidAction
    | _ => false

/-- Which tier supplied a service's catalog (`configSources` values
`'official' | 'aiwe.cloud' | 'bridge'`). -/
inductive Tier where
  | official : Tier
  | aiweCloud : Tier
  | bridge : Tier
deriving DecidableEq

/-- The fetch environment of `getAIWEConfig`: the two remote fetches
(`none` models a failed request / thrown transport error) and the static
`communityBridges` table (identified with the bridge's `config`). -/
structure FetchEnv where
  officialFetch : String → Option Value
  cloudFetch : String → Option Value
  bridges : String → Option Value

/-- The `NoIntegrationError` message. -/
def noIntegrationMsg (serviceName : String) : String :=
  "No AIWE integration available for " ++ serviceName

/-- Third tier of `getAIWEConfig`: the community-bridge lookup reached
from the inner catch. -/
def getAIWEConfigBridge (env : FetchEnv) (serviceName : String) :
    Except String (Value × Tier) :=
  match env.bridges serviceName with
  | some cfg => Except.ok (cfg, Tier.bridge)
  | none => Except.error (noIntegrationMsg serviceName)

/-- Second tier of `getAIWEConfig`: the aiwe.cloud manifest fetch; a
failed fetch and an invalid body both fall through to the bridge tier
(both are thrown inside the inner try). -/
def getAIWEConfigCloud (env : FetchEnv) (serviceName : String) :
    Except String (Value × Tier) :=
  match env.cloudFetch serviceName with
  | some cloudConfig =>
    if isValidAIWEConfig cloudConfig then Except.ok (cloudConfig, Tier.aiweCloud)
    else getAIWEConfigBridge env serviceName
  | none => getAIWEConfigBridge env serviceName

/-- `getAIWEConfig(serviceName)` from `index.ts` (lines 324-359).  The
returned `Tier` is the value recorded in `configSources` for the service
on success. -/
def getAIWEConfig (env : FetchEnv) (serviceName : String) :
    Except String (Value × Tier) :=
  match env.officialFetch serviceName with
  | some config =>
    if isValidAIWEConfig config then Except.ok (config, Tier.official)
    else getAIWEConfigCloud env serviceName
  | none => getAIWEConfigCloud env serviceName

/-- One step of an action plan as submitted to the runner.  Absent
optional fields are `none` (`alwaysExecute` absent is `false`, its falsy
reading). -/
structure PlanAction where
  id : String
  website : String
  parameters : List (String × Value)
  dependsOn : Option (List String)
  outputKey : Option String
  alwaysExecute : Bool

/-- The declared dependencies of an action (`[]` when absent). -/
def depsList (a : PlanAction) : List String :=
  a.dependsOn.getD []

/-- The output keys an action adds to the satisfied set: its `outputKey`
when truthy (`if (nextAction.outputKey)`). -/
def outputsOf (a : PlanAction) : List String :=
  match a.outputKey with
  | some k => if k == "" then [] else [k]
  | none => []

/-- Is an action eligible for selection given the available output keys?
Mirrors `!action.dependsOn || action.dependsOn.every(dep =>
availableOutputs.has(dep))`.  Dependencies are matched against *output
keys*, not action ids. -/
def eligible (avail : List String) (a : PlanAction) : Bool :=
  match a.dependsOn with
  | none => true
  | some ds => ds.all (fun d => elemStr d avail)

/-- `findIndex` + `splice`: the first element satisfying `p`, together
with the remaining list in original order. -/
def extractFirst {α : Type} (p : α → Bool) : List α → Option (α × List α)
  | [] => none
  | x :: xs =>
    if p x then some (x, xs)
    else
      match extractFirst p xs with
      | none => none
      | some (a, rest) => some (a, x :: rest)

/-- The cycle-error message of the iterative linearizer. -/
def cycleMsg : String := "Circular dependency detected in action plan"

/-- The `while` loop of `reorderActionPlan` (`index.ts` lines 419-435).
Each iteration removes exactly one action, so `fuel` initialised to the
plan length is never the limiting factor; the fuel-exhaustion branch
repeats the cycle error and is unreachable. -/
def reorderAux : Nat → List PlanAction → List String → Except String (List PlanAction)
  | _, [], _ => Except.ok []
  | 0, _ :: _, _ => Except.error cycleMsg
  | fuel + 1, x :: xs, avail =>
    match extractFirst (eligible avail) (x :: xs) with
    | none => Except.error cycleMsg
    | some (nextAction, rest) =>
      match reorderAux fuel rest (avail ++ outputsOf nextAction) with
      | Except.error e => Except.error e
      | Except.ok ordered => Except.ok (nextAction :: ordered)

/-- `reorderActionPlan(actionPlan)` from `index.ts` (lines 414-438), the
linearizer actually used by `executePlan`. -/
def reorderActionPlan (actionPlan : List PlanAction) : Except String (List PlanAction) :=
  reorderAux actionPlan.length actionPlan []

/-- Call-stack frames of the recursive linearizer in `utils.ts`
(`reorderActionPlan`, lines 56-82): `visit a` is a pending call of
`visit(a)`, `finish a` is the tail of such a call (mark visited, push to
the sorted list) reached after its dependency visits returned. -/
inductive VisitFrame where
  | visit : PlanAction → VisitFrame
  | finish : PlanAction → VisitFrame

/-- The `dependsOn.forEach` of `visit`: one recursive `visit` call per
dependency id found in the action map, in declaration order. -/
def depVisitFrames (actionMap : List (String × PlanAction)) (ds : List String) :
    List VisitFrame :=
  ds.filterMap (fun d => (aget d actionMap).map VisitFrame.visit)

/-- Small-step execution of the recursive `visit` of `utils.ts` as an
explicit call stack, with one unit of fuel per step.  The source checks
`visited` at call time and marks it only after all dependency visits
returned, which is exactly the `visit`/`finish` pair here. -/
def utilsRun (actionMap : List (String × PlanAction)) :
    Nat → List String → List PlanAction → List VisitFrame → Option (List PlanAction)
  | 0, _, _, _ => none
  | _ + 1, _, sortedActions, [] => some sortedActions
  | fuel + 1, visited, sortedActions, VisitFrame.visit a :: k =>
    if elemStr a.id visited then utilsRun actionMap fuel visited sortedActions k
    else utilsRun actionMap fuel visited sortedActions
      (depVisitFrames actionMap (depsList a) ++ VisitFrame.finish a :: k)
  | fuel + 1, visited, sortedActions, VisitFrame.finish a :: k =>
    utilsRun actionMap fuel (visited ++ [a.id]) (sortedActions ++ [a]) k

/-- `reorderActionPlan(actions)` from `utils.ts`, run with `fuel` steps:
build the action map, then `actions.forEach(action => visit(action))`.
`none` means the computation did not finish within `fuel` steps. -/
def utilsReorderActionPlan (fuel : Nat) (actions : List PlanAction) :
    Option (List PlanAction) :=
  utilsRun (actions.map (fun a => (a.id, a))) fuel [] [] (actions.map VisitFrame.visit)

/-- The recursion of `utils.ts`'s linearizer never terminates on this
input: no step budget suffices. -/
def UtilsReorderDiverges (actions : List PlanAction) : Prop :=
  ∀ fuel, utilsReorderActionPlan fuel actions = none

/-- Outcome of one `executeAction` attempt as seen by the retry loop. -/
inductive ExecOutcome where
  | ok : Value → ExecOutcome
  | err : String → ExecOutcome

/-- An escalation decision returned by the oracle.  Any decision other
than `stop` and `retry` takes the source's final `else` branch, i.e.
behaves as `continue`; `cont` stands for all of them. -/
inductive Decision where
  | stop : String → Decision
  | retry : Decision
  | cont : Decision

/-- Result of the per-action retry loop. -/
inductive RetryOutcome where
  | success : Value → Nat → RetryOutcome
  | fatal : String → String → RetryOutcome
  | failed : String → RetryOutcome
  | noDecision : String → RetryOutcome

/-- One round of up to `maxRetries = 3` attempts, numbered from `start`:
on success returns the value and the retry count (number of failures in
this round, the value `actionResult.retryCount` holds at the `break`);
after three failures returns the last error message. -/
def attempt3 (exec : Nat → ExecOutcome) (start : Nat) : Sum (Value × Nat) String :=
  match exec start with
  | ExecOutcome.ok v => Sum.inl (v, 0)
  | ExecOutcome.err _ =>
    match exec (start + 1) with
    | ExecOutcome.ok v => Sum.inl (v, 1)
    | ExecOutcome.err _ =>
      match exec (start + 2) with
      | ExecOutcome.ok v => Sum.inl (v, 2)
      | ExecOutcome.err e2 => Sum.inr e2

/-- The retry/escalation loop of `executePlan` (lines 493-546) for one
action.  `exec n` is the outcome of the `n`-th attempt (counted across
escalation resets), `oracle` the remaining escalation script, `start`
the number of attempts already made.  Returns the outcome, the total
number of attempts made, and the unconsumed oracle script.  A `retry`
decision resets `retryCount` to 0 and loops; `noDecision` marks the
model artifact of an exhausted oracle script. -/
def runRetry (exec : Nat → ExecOutcome) :
    List Decision → Nat → RetryOutcome × Nat × List Decision
  | [], start =>
    match attempt3 exec start with
    | Sum.inl (v, rc) => (RetryOutcome.success v rc, start + rc + 1, [])
    | Sum.inr e => (RetryOutcome.noDecision e, start + 3, [])
  | d :: rest, start =>
    match attempt3 exec start with
    | Sum.inl (v, rc) => (RetryOutcome.success v rc, start + rc + 1, d :: rest)
    | Sum.inr e =>
      match d with
      | Decision.stop reason => (RetryOutcome.fatal e reason, start + 3, rest)
      | Decision.cont => (RetryOutcome.failed e, start + 3, rest)
      | Decision.retry => runRetry exec rest (start + 3)

/-- A completed-action record (`completedActions` entries). -/
structure CompletedRec where
  website : String
  result : Value
  timestamp : Nat

/-- One entry of the `actionResults` ledger built by `executePlan`. -/
structure ActionRec where
  id : String
  success : Bool
  result : Option Value
  error : Option String

/-- The environment of a plan run: the backend (`executeAction` as a
function of action id, resolved parameters and per-action attempt
number), the set of websites with a fetched config, and the clock value
`Date.now()` returns for completion records. -/
structure EngineEnv where
  exec : String → List (String × Value) → Nat → ExecOutcome
  configs : List String
  now : Nat

/-- The mutable state of `executePlan`: the output store, the
completed-actions map, the result ledger, the remaining oracle script
and the trace of backend action runs `(id, resolved parameters, number
of attempts)`. -/
structure EngineSt where
  outputs : List (String × Value)
  completed : List (String × CompletedRec)
  results : List ActionRec
  oracle : List Decision
  trace : List (String × List (String × Value) × Nat)

/-- Result of running (part of) a plan: normal completion, or a thrown
error (the state records the side effects made before the throw, as the
source mutates its maps in place). -/
inductive StepRes where
  | ok : EngineSt → StepRes
  | fatal : String → EngineSt → StepRes

/-- The first declared dependency whose output key is absent from the
output store (the dependency check of lines 472-478). -/
def firstMissingDep (deps : Option (List String)) (outputs : List (String × Value)) :
    Option String :=
  match deps with
  | none => none
  | some ds => ds.find? (fun d => !(mhas d outputs))

def missingDepMsg (id dep : String) : String :=
  "Cannot execute action " ++ id ++ ": missing required dependency " ++ dep

def noConfigMsg (website : String) : String :=
  "No configuration found for website " ++ website

def fatalActionMsg (id lastErr reason : String) : String :=
  "Fatal error in action " ++ id ++ ": " ++ lastErr ++ "\nReason: " ++ reason

/-- `if (action.outputKey) outputs.set(action.outputKey, v)`. -/
def writeOutput (a : PlanAction) (v : Value) (outputs : List (String × Value)) :
    List (String × Value) :=
  match a.outputKey with
  | some k => if k == "" then outputs else mset k v outputs
  | none => outputs

/-- The non-skip path of the `executePlan` loop body for one action:
dependency check, parameter resolution, config lookup, retry loop, and
the recording of the outcome (lines 472-580). -/
def execFresh (env : EngineEnv) (st : EngineSt) (a : PlanAction) : StepRes :=
  match firstMissingDep a.dependsOn st.outputs with
  | some d => StepRes.fatal (missingDepMsg a.id d) st
  | none =>
    match resolveParameters a.parameters st.outputs with
    | Except.error e => StepRes.fatal e st
    | Except.ok params =>
      if !(elemStr a.website env.configs) then StepRes.fatal (noConfigMsg a.website) st
      else
        match runRetry (env.exec a.id params) st.oracle 0 with
        | (RetryOutcome.success v _, attempts, oracle') =>
          StepRes.ok
            { outputs := writeOutput a v st.outputs
              completed := aset a.id
                { website := a.website, result := v, timestamp := env.now } st.completed
              results := st.results ++
                [{ id := a.id, success := true, result := some v, error := none }]
              oracle := oracle'
              trace := st.trace ++ [(a.id, params, attempts)] }
        | (RetryOutcome.fatal e reason, attempts, oracle') =>
          StepRes.fatal (fatalActionMsg a.id e reason)
            { st with oracle := oracle', trace := st.trace ++ [(a.id, params, attempts)] }
        | (RetryOutcome.failed e, attempts, oracle') =>
          StepRes.ok
            { st with
              results := st.results ++
                [{ id := a.id, success := false, result := none, error := some e }]
              oracle := oracle'
              trace := st.trace ++ [(a.id, params, attempts)] }
        | (RetryOutcome.noDecision _, attempts, oracle') =>
          StepRes.fatal "escalation oracle script exhausted (model artifact)"
            { st with oracle := oracle', trace := st.trace ++ [(a.id, params, attempts)] }

/-- The loop body of `executePlan` for one action, including the
skip-if-completed rule (lines 459-470): an already-completed action with
`alwaysExecute` unset is not executed; its recorded result is published
under its output key and nothing else changes. -/
def stepAction (env : EngineEnv) (st : EngineSt) (a : PlanAction) : StepRes :=
  match aget a.id st.completed with
  | some previousExecution =>
    if !a.alwaysExecute then
      StepRes.ok { st with outputs := writeOutput a previousExecution.result st.outputs }
    else execFresh env st a
  | none => execFresh env st a

/-- Run the ordered plan action by action; a thrown error stops the
loop. -/
def runPlan (env : EngineEnv) : List PlanAction → EngineSt → StepRes
  | [], st => StepRes.ok st
  | a :: rest, st =>
    match stepAction env st a with
    | StepRes.ok st' => runPlan env rest st'
    | StepRes.fatal m st' => StepRes.fatal m st'

/-- The initial state of a plan run: empty output store, the
completed-actions map carried over from the context, the full oracle
script, no results, no executions. -/
def initSt (completed0 : List (String × CompletedRec)) (oracle : List Decision) : EngineSt :=
  { outputs := [], completed := completed0, results := [], oracle := oracle, trace := [] }

/-- `executePlan(actionPlan, configs, instruction, completedActions)`
from `index.ts` (lines 440-652), up to the final summarization calls
(which only render the ledger): linearize, then run each action. -/
def executePlan (env : EngineEnv) (plan : List PlanAction)
    (completed0 : List (String × CompletedRec)) (oracle : List Decision) : StepRes :=
  match reorderActionPlan plan with
  | Except.error m => StepRes.fatal m (initSt completed0 oracle)
  | Except.ok ordered => runPlan env ordered (initSt completed0 oracle)

/-- The thrown error of a run, if any. -/
def stepMsg : StepRes → Option String
  | StepRes.ok _ => none
  | StepRes.fatal m _ => some m

/-- The final state of a run (also on a thrown error: the source mutates
its maps in place, so effects made before the throw persist). -/
def stepState : StepRes → EngineSt
  | StepRes.ok st => st
  | StepRes.fatal _ st => st

/-- Every action of the list has all its dependency keys available when
reached, starting from the available set `avail`: the ordering guarantee
of the linearizer. -/
def SatisfiedFrom (avail : List String) : List PlanAction → Prop
  | [] => True
  | a :: rest => eligible avail a = true ∧ SatisfiedFrom (avail ++ outputsOf a) rest

/-- Does action `b` provide output key `d`? -/
def provides (b : PlanAction) (d : String) : Bool :=
  elemStr d (outputsOf b)

/-- `S` is a blocked subset of `plan`: a nonempty set of actions each of
which declares a dependency key that no action outside `S` provides.
This is the algorithm-independent cycle condition: a dependency cycle is
blocked, and so is a dependency on a key with no in-plan provider. -/
def BlockedIn (plan S : List PlanAction) : Prop :=
  S ≠ [] ∧ (∀ a, a ∈ S → a ∈ plan) ∧
    ∀ a, a ∈ S → ∃ d, d ∈ depsList a ∧ ∀ b, b ∈ plan → provides b d = true → b ∈ S

/-- The plan's key-based dependency structure admits no complete order. -/
def HasBlocked (plan : List PlanAction) : Prop :=
  ∃ S, BlockedIn plan S

/-- First action of a two-action dependency cycle (`a` depends on `b`). -/
def cycActionA : PlanAction :=
  { id := "a", website := "svc", parameters := [], dependsOn := some ["b"],
    outputKey := some "ka", alwaysExecute := false }

/-- Second action of the cycle (`b` depends on `a`). -/
def cycActionB : PlanAction :=
  { id := "b", website := "svc", parameters := [], dependsOn := some ["a"],
    outputKey := some "kb", alwaysExecute := false }

/-- The action map `utils.ts` builds for the cyclic two-action plan. -/
def cycMap : List (String × PlanAction) := [("a", cycActionA), ("b", cycActionB)]

/-- Key-based two-action cycle for the iterative linearizer: each action
depends on the other's output key. -/
def keyCycActionA : PlanAction :=
  { id := "a", website := "svc", parameters := [], dependsOn := some ["kb"],
    outputKey := some "ka", alwaysExecute := false }

def keyCycActionB : PlanAction :=
  { id := "b", website := "svc", parameters := [], dependsOn := some ["ka"],
    outputKey := some "kb", alwaysExecute := false }

/-- The backend of the end-to-end scenario: action `fetch` returns
`{"total": 7}`, any other action succeeds with a placeholder. -/
def envC1 : EngineEnv :=
  { exec := fun id _ _ =>
      if id == "fetch" then ExecOutcome.ok (Value.obj [("total", Value.num 7)])
      else ExecOutcome.ok (Value.str "done")
    configs := ["svc"]
    now := 100 }

/-- The first action of the spec's end-to-end plan. -/
def fetchAction : PlanAction :=
  { id := "fetch", website := "svc", parameters := [], dependsOn := none,
    outputKey := some "k1", alwaysExecute := false }

/-- The second action exactly as the spec writes it: `dependsOn`
names the action id `fetch`. -/
def useAction : PlanAction :=
  { id := "use", website := "svc",
    parameters := [("v", Value.str "$outputs.k1.total")],
    dependsOn := some ["fetch"], outputKey := none, alwaysExecute := false }

/-- The second action with `dependsOn` naming the *output key* `k1`
instead, which is what the engine actually matches dependencies
against. -/
def useActionKeyDep : PlanAction :=
  { id := "use", website := "svc",
    parameters := [("v", Value.str "$outputs.k1.total")],
    dependsOn := some ["k1"], outputKey := none, alwaysExecute := false }

/-- The backend for the falsy-output scenario: `fetch` succeeds with the
result `0`. -/
def envZero : EngineEnv :=
  { exec := fun id _ _ =>
      if id == "fetch" then ExecOutcome.ok (Value.num 0)
      else ExecOutcome.ok (Value.str "done")
    configs := ["svc"]
    now := 100 }

/-- A later action referencing the falsy published output of `fetch`. -/
def useZeroAction : PlanAction :=
  { id := "use", website := "svc", parameters := [("v", Value.str "$outputs.k1")],
    dependsOn := some ["k1"], outputKey := none, alwaysExecute := false }

/-- An authentication descriptor declaring one header-type option
requiring `x-api-key`. -/
def authHeaderCfg : AuthDescr :=
  { type := "header",
    options := [{ name := "default", headers := some [("x-api-key", "string")] }] }

/-- The credential error the engine produces for a missing `x-api-key`. -/
def credMsgX : String := missingCredsMsg "svc" ["x-api-key"]

/-- A backend whose action `A` always fails and whose action `B` always
succeeds. -/
def envFailA : EngineEnv :=
  { exec := fun id _ _ =>
      if id == "A" then ExecOutcome.err "boom" else ExecOutcome.ok (Value.str "okB")
    configs := ["svc"]
    now := 50 }

/-- A failing action publishing under key `k` (when it ever succeeds). -/
def actFailA : PlanAction :=
  { id := "A", website := "svc", parameters := [], dependsOn := none,
    outputKey := some "k", alwaysExecute := false }

/-- A second, independent action. -/
def actPlainB : PlanAction :=
  { id := "B", website := "svc", parameters := [], dependsOn := none,
    outputKey := none, alwaysExecute := false }

/-- A tier fails when its fetch fails (`none`) or every fetched body
fails structural validation — the two cases the source's catch treats
identically. -/
def tierFails (f : Option Value) : Prop :=
  ∀ cfg, f = some cfg → isValidAIWEConfig cfg = false

/-- A minimal structurally valid catalog used as a bridge config. -/
def bridgeCfgW : Value :=
  Value.obj [("service", Value.str "svc"), ("description", Value.str "d"),
             ("actions", Value.arr [])]

/-- A fetch environment in which both remote tiers fail and only the
bridge table knows `svc`. -/
def envTierW : FetchEnv :=
  { officialFetch := fun _ => none
    cloudFetch := fun _ => none
    bridges := fun s => if s == "svc" then some bridgeCfgW else none }

/-- Credentials holding the declared header and an unrelated secret. -/
def credsW : List (String × List (String × String)) :=
  [("svc", [("x-api-key", "k123"), ("other-secret", "s3cr3t")])]

/-- The completed-actions map of the skip scenario: `A` finished at
timestamp 42 with result `9`. -/
def completedC9 : List (String × CompletedRec) :=
  [("A", { website := "svc", result := Value.num 9, timestamp := 42 })]

/-- The previously completed action, resubmitted without
`alwaysExecute`. -/
def skipActionA : PlanAction :=
  { id := "A", website := "svc", parameters := [], dependsOn := none,
    outputKey := some "k", alwaysExecute := false }

/-- The same action with `alwaysExecute` set. -/
def forceActionA : PlanAction :=
  { id := "A", website := "svc", parameters := [], dependsOn := none,
    outputKey := some "k", alwaysExecute := true }

/-- A later action consuming `A`'s republished output. -/
def consumeActionB : PlanAction :=
  { id := "B", website := "svc", parameters := [("v", Value.str "$outputs.k")],
    dependsOn := some ["k"], outputKey := none, alwaysExecute := false }

/-- A backend whose clock differs from the recorded timestamp, so an
overwrite is observable. -/
def envC9 : EngineEnv :=
  { exec := fun _ _ _ => ExecOutcome.ok (Value.str "fresh")
    configs := ["svc"]
    now := 77 }

theorem elemStr_iff_mem (k : String) (l : List String) : elemStr k l = true ↔ k ∈ l := by
  induction l with
  | nil => simp [elemStr]
  | cons x rest ih =>
    simp only [elemStr, Bool.or_eq_true, beq_iff_eq, ih, List.mem_cons]
    exact or_congr_left eq_comm

theorem elemStr_append (k : String) (l₁ l₂ : List String) :
    elemStr k (l₁ ++ l₂) = (elemStr k l₁ || elemStr k l₂) := by
  induction l₁ with
  | nil => simp [elemStr]
  | cons x rest ih => simp [elemStr, ih, Bool.or_assoc]

theorem eligible_iff (avail : List String) (a : PlanAction) :
    eligible avail a = true ↔ ∀ d ∈ depsList a, elemStr d avail = true := by
  cases h : a.dependsOn with
  | none => simp [eligible, h, depsList]
  | some ds => simp [eligible, h, depsList, List.all_eq_true]

theorem eligible_false_exists {avail : List String} {a : PlanAction}
    (h : eligible avail a = false) :
    ∃ d, d ∈ depsList a ∧ elemStr d avail = false := by
  cases hd : a.dependsOn with
  | none => simp [eligible, hd] at h
  | some ds =>
    rw [eligible, hd, List.all_eq_false] at h
    obtain ⟨d, hmem, hne⟩ := h
    exact ⟨d, by simpa [depsList, hd] using hmem, by simpa using hne⟩

theorem eligible_mono {avail : List String} {a b : PlanAction}
    (hsub : ∀ d, d ∈ depsList a → d ∈ depsList b)
    (hb : eligible avail b = true) : eligible avail a = true := by
  rw [eligible_iff] at hb ⊢
  exact fun d hd => hb d (hsub d hd)

theorem extractFirst_eq_some {α : Type} (p : α → Bool) :
    ∀ (l : List α) (a : α) (rest : List α), extractFirst p l = some (a, rest) →
      ∃ l₁ l₂, l = l₁ ++ a :: l₂ ∧ rest = l₁ ++ l₂ ∧ p a = true ∧
        ∀ x ∈ l₁, p x = false := by
  intro l
  induction l with
  | nil => intro a rest h; simp [extractFirst] at h
  | cons x xs ih =>
    intro a rest h
    by_cases hp : p x = true
    · rw [extractFirst, if_pos hp] at h
      cases h
      exact ⟨[], xs, rfl, rfl, hp, by simp⟩
    · rw [extractFirst, if_neg hp] at h
      cases heq : extractFirst p xs with
      | none => rw [heq] at h; cases h
      | some pr =>
        obtain ⟨a', rest'⟩ := pr
        rw [heq] at h
        cases h
        obtain ⟨l₁, l₂, rfl, rfl, hpa, hfalse⟩ := ih a rest' heq
        refine ⟨x :: l₁, l₂, rfl, rfl, hpa, ?_⟩
        intro y hy
        rcases List.mem_cons.mp hy with rfl | hy'
        · simpa using hp
        · exact hfalse y hy'

theorem extractFirst_eq_none {α : Type} (p : α → Bool) :
    ∀ (l : List α), extractFirst p l = none → ∀ x ∈ l, p x = false := by
  intro l
  induction l with
  | nil => intro _ x hx; cases hx
  | cons y ys ih =>
    intro h x hx
    by_cases hp : p y = true
    · rw [extractFirst, if_pos hp] at h; cases h
    · rw [extractFirst, if_neg hp] at h
      rcases List.mem_cons.mp hx with rfl | hx'
      · simpa using hp
      · cases heq : extractFirst p ys with
        | none => exact ih heq x hx'
        | some pr => obtain ⟨a, r⟩ := pr; rw [heq] at h; cases h

theorem reorderAux_ok_spec :
    ∀ (fuel : Nat) (l : List PlanAction) (avail : List String) (out : List PlanAction),
      l.length ≤ fuel → reorderAux fuel l avail = Except.ok out →
      out.Perm l ∧ SatisfiedFrom avail out := by
  intro fuel
  induction fuel with
  | zero =>
    intro l avail out hlen h
    cases l with
    | nil =>
      rw [show reorderAux 0 [] avail = Except.ok [] from rfl] at h
      cases h
      exact ⟨List.Perm.refl _, trivial⟩
    | cons x xs => simp at hlen
  | succ n ih =>
    intro l avail out hlen h
    cases l with
    | nil =>
      rw [show reorderAux (n + 1) [] avail = Except.ok [] from rfl] at h
      cases h
      exact ⟨List.Perm.refl _, trivial⟩
    | cons x xs =>
      simp only [reorderAux] at h
      split at h
      · cases h
      · rename_i a rest heq
        split at h
        · cases h
        · rename_i ordered hrec
          cases h
          obtain ⟨l₁, l₂, hl, hrest, hpa, -⟩ := extractFirst_eq_some _ _ _ _ heq
          have hlen' : rest.length ≤ n := by
            rw [hrest]
            rw [hl] at hlen
            simp [List.length_append] at hlen ⊢
            omega
          obtain ⟨hperm, hsat⟩ := ih rest (avail ++ outputsOf a) ordered hlen' hrec
          refine ⟨?_, hpa, hsat⟩
          refine (hperm.cons a).trans ?_
          rw [hrest, hl]
          exact List.perm_middle.symm

theorem reorderAux_shape :
    ∀ (fuel : Nat) (l : List PlanAction) (avail : List String),
      (∃ out, reorderAux fuel l avail = Except.ok out) ∨
        reorderAux fuel l avail = Except.error cycleMsg := by
  intro fuel
  induction fuel with
  | zero =>
    intro l avail
    cases l with
    | nil => exact Or.inl ⟨[], rfl⟩
    | cons x xs => exact Or.inr rfl
  | succ n ih =>
    intro l avail
    cases l with
    | nil => exact Or.inl ⟨[], rfl⟩
    | cons x xs =>
      simp only [reorderAux]
      cases heq : extractFirst (eligible avail) (x :: xs) with
      | none => exact Or.inr (by simp only [heq])
      | some pr =>
        obtain ⟨a, rest⟩ := pr
        rcases ih rest (avail ++ outputsOf a) with ⟨out, hout⟩ | herr
        · exact Or.inl ⟨a :: out, by simp only [heq, hout]⟩
        · exact Or.inr (by simp only [heq, herr])

theorem reorderAux_error_blocked :
    ∀ (fuel : Nat) (l : List PlanAction) (avail : List String) (e : String),
      l.length ≤ fuel → reorderAux fuel l avail = Except.error e →
      ∃ S : List PlanAction, S ≠ [] ∧ (∀ x, x ∈ S → x ∈ l) ∧
        ∀ a, a ∈ S → ∃ d, d ∈ depsList a ∧ elemStr d avail = false ∧
          ∀ b, b ∈ l → provides b d = true → b ∈ S := by
  intro fuel
  induction fuel with
  | zero =>
    intro l avail e hlen h
    cases l with
    | nil => rw [show reorderAux 0 [] avail = Except.ok [] from rfl] at h; cases h
    | cons x xs => simp at hlen
  | succ n ih =>
    intro l avail e hlen h
    cases l with
    | nil => rw [show reorderAux (n + 1) [] avail = Except.ok [] from rfl] at h; cases h
    | cons x xs =>
      simp only [reorderAux] at h
      split at h
      · rename_i heq
        refine ⟨x :: xs, by simp, fun _ hx => hx, ?_⟩
        intro a ha
        have hne : eligible avail a = false := extractFirst_eq_none _ _ heq a ha
        obtain ⟨d, hd, hda⟩ := eligible_false_exists hne
        exact ⟨d, hd, hda, fun b hb _ => hb⟩
      · rename_i a rest heq
        split at h
        · rename_i e' hrec
          obtain ⟨l₁, l₂, hl, hrest, hpa, -⟩ := extractFirst_eq_some _ _ _ _ heq
          have hlen' : rest.length ≤ n := by
            rw [hrest]
            rw [hl] at hlen
            simp [List.length_append] at hlen ⊢
            omega
          obtain ⟨S, hS1, hS2, hS3⟩ := ih rest (avail ++ outputsOf a) e' hlen' hrec
          have hmem_rest_l : ∀ y, y ∈ rest → y ∈ x :: xs := by
            intro y hy
            rw [hrest] at hy
            rw [hl]
            rcases List.mem_append.mp hy with h1 | h2
            · exact List.mem_append.mpr (Or.inl h1)
            · exact List.mem_append.mpr (Or.inr (List.mem_cons_of_mem a h2))
          refine ⟨S, hS1, fun y hy => hmem_rest_l y (hS2 y hy), ?_⟩
          intro a' ha'
          obtain ⟨d, hd, hdav, hprov⟩ := hS3 a' ha'
          rw [elemStr_append] at hdav
          have hdav1 : elemStr d avail = false := by
            cases hq : elemStr d avail
            · rfl
            · rw [hq] at hdav; simp at hdav
          have hdav2 : elemStr d (outputsOf a) = false := by
            cases hq : elemStr d (outputsOf a)
            · rfl
            · rw [hq] at hdav; simp at hdav
          refine ⟨d, hd, hdav1, ?_⟩
          intro b hb hbprov
          rw [hl] at hb
          rcases List.mem_append.mp hb with hb1 | hb2
          · exact hprov b (by rw [hrest]; exact List.mem_append.mpr (Or.inl hb1)) hbprov
          · rcases List.mem_cons.mp hb2 with rfl | hb3
            · rw [provides] at hbprov
              rw [hdav2] at hbprov
              cases hbprov
            · exact hprov b (by rw [hrest]; exact List.mem_append.mpr (Or.inr hb3)) hbprov
        · cases h

theorem blocked_not_satisfied :
    ∀ (out : List PlanAction) (avail : List String) (S plan : List PlanAction),
      SatisfiedFrom avail out → S ≠ [] → (∀ x, x ∈ S → x ∈ out) →
      (∀ x, x ∈ out → x ∈ plan) →
      (∀ a, a ∈ S → ∃ d, d ∈ depsList a ∧ ∀ b, b ∈ plan → provides b d = true → b ∈ S) →
      (∀ d, elemStr d avail = true → ∃ b, b ∈ plan ∧ provides b d = true ∧ b ∉ S) →
      False := by
  intro out
  induction out with
  | nil =>
    intro avail S plan _ hS hSout _ _ _
    obtain ⟨s, hs⟩ := List.exists_mem_of_ne_nil S hS
    cases hSout s hs
  | cons a rest ih =>
    intro avail S plan hsat hS hSout hout hblk hinv
    obtain ⟨h1, h2⟩ : eligible avail a = true ∧ SatisfiedFrom (avail ++ outputsOf a) rest := hsat
    by_cases haS : a ∈ S
    · obtain ⟨d, hd, hprov⟩ := hblk a haS
      have hdav : elemStr d avail = true := (eligible_iff _ _).mp h1 d hd
      obtain ⟨b, hbp, hbprov, hbn⟩ := hinv d hdav
      exact hbn (hprov b hbp hbprov)
    · apply ih (avail ++ outputsOf a) S plan h2 hS
      · intro x hx
        rcases List.mem_cons.mp (hSout x hx) with rfl | hx'
        · exact absurd hx haS
        · exact hx'
      · exact fun x hx => hout x (List.mem_cons_of_mem a hx)
      · exact hblk
      · intro d hd
        rw [elemStr_append] at hd
        rcases Bool.or_eq_true_iff.mp hd with hd1 | hd2
        · exact hinv d hd1
        · exact ⟨a, hout a (List.mem_cons_self a rest), hd2, haS⟩

theorem reorder_ok_spec (plan out : List PlanAction)
    (h : reorderActionPlan plan = Except.ok out) :
    out.Perm plan ∧ SatisfiedFrom [] out :=
  reorderAux_ok_spec plan.length plan [] out le_rfl h

theorem reorder_blocked_error (plan : List PlanAction)
    (hb : HasBlocked plan) : reorderActionPlan plan = Except.error cycleMsg := by
  obtain ⟨S, hS1, hS2, hS3⟩ := hb
  rcases reorderAux_shape plan.length plan [] with ⟨out, hout⟩ | herr
  · exfalso
    obtain ⟨hperm, hsat⟩ := reorderAux_ok_spec plan.length plan [] out le_rfl hout
    apply blocked_not_satisfied out [] S plan hsat hS1
    · exact fun x hx => hperm.mem_iff.mpr (hS2 x hx)
    · exact fun x hx => hperm.mem_iff.mp hx
    · exact hS3
    · intro d hd
      rw [show elemStr d [] = false from rfl] at hd
      cases hd
  · exact herr

theorem reorder_error_hasBlocked (plan : List PlanAction) (e : String)
    (h : reorderActionPlan plan = Except.error e) : HasBlocked plan := by
  obtain ⟨S, hS1, hS2, hS3⟩ := reorderAux_error_blocked plan.length plan [] e le_rfl h
  refine ⟨S, hS1, hS2, ?_⟩
  intro a ha
  obtain ⟨d, hd, -, hprov⟩ := hS3 a ha
  exact ⟨d, hd, hprov⟩

theorem sublist_of_sublist_middle {α : Type} {c : α} :
    ∀ (l₁ : List α) (l₂ s : List α), s.Sublist (l₁ ++ c :: l₂) → c ∉ s →
      s.Sublist (l₁ ++ l₂) := by
  intro l₁
  induction l₁ with
  | nil =>
    intro l₂ s hs hc
    cases hs with
    | cons _ h => exact h
    | cons₂ _ h => exact ((hc (List.mem_cons_self _ _)).elim)
  | cons x rest ih =>
    intro l₂ s hs hc
    cases hs with
    | cons _ h => exact List.Sublist.cons x (ih l₂ s h hc)
    | cons₂ _ h =>
      rename_i s'
      have hc' : c ∉ s' := fun hmem => hc (List.mem_cons_of_mem x hmem)
      exact List.Sublist.cons₂ x (ih l₂ s' h hc')

theorem mem_left_of_pair_sublist {α : Type} {a b : α} :
    ∀ (l₁ l₂ : List α), [a, b].Sublist (l₁ ++ b :: l₂) → b ∉ l₁ → b ∉ l₂ →
      a ∈ l₁ := by
  intro l₁
  induction l₁ with
  | nil =>
    intro l₂ hs hb1 hb2
    exfalso
    cases hs with
    | cons _ h => exact hb2 (h.subset (by simp))
    | cons₂ _ h => exact hb2 (h.subset (by simp))
  | cons x rest ih =>
    intro l₂ hs hb1 hb2
    cases hs with
    | cons _ h =>
      have hb1' : b ∉ rest := fun hmem => hb1 (List.mem_cons_of_mem x hmem)
      exact List.mem_cons_of_mem x (ih l₂ h hb1' hb2)
    | cons₂ _ h => exact List.mem_cons_self _ _

theorem reorderAux_tiebreak :
    ∀ (fuel : Nat) (l : List PlanAction) (avail : List String) (out : List PlanAction)
      (a b : PlanAction),
      l.length ≤ fuel → l.Nodup → reorderAux fuel l avail = Except.ok out →
      [a, b].Sublist l → (∀ d, d ∈ depsList a → d ∈ depsList b) →
      [a, b].Sublist out := by
  intro fuel
  induction fuel with
  | zero =>
    intro l avail out a b hlen hnd h hab hdeps
    cases l with
    | nil => cases hab
    | cons x xs => simp at hlen
  | succ n ih =>
    intro l avail out a b hlen hnd h hab hdeps
    cases l with
    | nil => cases hab
    | cons x xs =>
      simp only [reorderAux] at h
      split at h
      · cases h
      · rename_i c rest heq
        split at h
        · cases h
        · rename_i ordered hrec
          cases h
          obtain ⟨l₁, l₂, hl, hrest, hpc, hfalse⟩ := extractFirst_eq_some _ _ _ _ heq
          have hab' : [a, b].Sublist (l₁ ++ c :: l₂) := by rw [← hl]; exact hab
          have hsub_rest : rest.Sublist (x :: xs) := by
            rw [hrest, hl]
            exact (List.sublist_cons_self c l₂).append_left l₁
          have hnd_rest : rest.Nodup := hsub_rest.nodup hnd
          have hlen' : rest.length ≤ n := by
            rw [hrest]
            rw [hl] at hlen
            simp [List.length_append] at hlen ⊢
            omega
          have hperm : ordered.Perm rest :=
            (reorderAux_ok_spec n rest (avail ++ outputsOf c) ordered hlen' hrec).1
          by_cases hca : c = a
          · subst hca
            have hne : c ≠ b := by
              intro hEq
              subst hEq
              have hnd2 : List.Nodup [c, c] := hab.nodup hnd
              simp at hnd2
            have hbl : b ∈ x :: xs := hab.subset (by simp)
            have hbrest : b ∈ rest := by
              rw [hrest]
              have hbl2 : b ∈ l₁ ++ c :: l₂ := by rw [← hl]; exact hbl
              rcases List.mem_append.mp hbl2 with h1 | h2
              · exact List.mem_append.mpr (Or.inl h1)
              · rcases List.mem_cons.mp h2 with hEq | h3
                · exact absurd hEq.symm hne
                · exact List.mem_append.mpr (Or.inr h3)
            have hbord : b ∈ ordered := hperm.mem_iff.mpr hbrest
            exact List.Sublist.cons₂ c (List.singleton_sublist.mpr hbord)
          · by_cases hcb : c = b
            · exfalso
              subst hcb
              have hnd' : (l₁ ++ c :: l₂).Nodup := by rw [← hl]; exact hnd
              obtain ⟨-, hnd2, hdisj⟩ := List.nodup_append.mp hnd'
              have hbn1 : c ∉ l₁ := fun hmem => hdisj hmem (List.mem_cons_self c l₂)
              have hbn2 : c ∉ l₂ := (List.nodup_cons.mp hnd2).1
              have haIn : a ∈ l₁ := mem_left_of_pair_sublist l₁ l₂ hab' hbn1 hbn2
              have hea : eligible avail a = true := eligible_mono hdeps hpc
              rw [hfalse a haIn] at hea
              cases hea
            · have hab_rest : [a, b].Sublist rest := by
                rw [hrest]
                apply sublist_of_sublist_middle l₁ l₂ _ hab'
                intro hmem
                rcases (by simpa using hmem : c = a ∨ c = b) with hEq | hEq
                · exact hca hEq
                · exact hcb hEq
              exact List.Sublist.cons c
                (ih rest (avail ++ outputsOf c) ordered a b hlen' hnd_rest hrec hab_rest hdeps)

theorem alookup_mset_self (k : String) (v : Value) :
    ∀ m : List (String × Value), alookup k (mset k v m) = some v := by
  intro m
  induction m with
  | nil => simp [mset, alookup, beq_self_eq_true]
  | cons kv rest ih =>
    obtain ⟨k', v'⟩ := kv
    by_cases hk : k' == k
    · simp [mset, hk, alookup, beq_self_eq_true]
    · simp only [mset, alookup]
      rw [if_neg (by simpa using hk), alookup, if_neg (by simpa using hk)]
      exact ih

theorem aget_aset_self {α : Type} (k : String) (v : α) :
    ∀ m : List (String × α), aget k (aset k v m) = some v := by
  intro m
  induction m with
  | nil => simp [aset, aget, beq_self_eq_true]
  | cons kv rest ih =>
    obtain ⟨k', v'⟩ := kv
    by_cases hk : k' == k
    · simp [aset, hk, aget, beq_self_eq_true]
    · simp only [aset, aget]
      rw [if_neg (by simpa using hk), aget, if_neg (by simpa using hk)]
      exact ih

theorem aget_aset_other {α : Type} (k k' : String) (v : α) (hne : (k' == k) = false) :
    ∀ m : List (String × α), aget k' (aset k v m) = aget k' m := by
  intro m
  induction m with
  | nil => simp [aset, aget, BEq.symm_false hne]
  | cons kv rest ih =>
    obtain ⟨k₀, v₀⟩ := kv
    by_cases hk : k₀ == k
    · have hk' : k₀ = k := by simpa using hk
      subst hk'
      simp [aset, beq_self_eq_true, aget, BEq.symm_false hne]
    · simp only [aset]
      rw [if_neg (by simpa using hk)]
      simp only [aget]
      by_cases h0 : k₀ == k'
      · rw [if_pos h0, if_pos h0]
      · rw [if_neg (by simpa using h0), if_neg (by simpa using h0)]
        exact ih

theorem isPrefixL_append_of_isPrefixL :
    ∀ (p l t : List Char), isPrefixL p l = true → isPrefixL p (l ++ t) = true := by
  intro p
  induction p with
  | nil => intro l t _; rfl
  | cons c cs ih =>
    intro l t h
    cases l with
    | nil => cases h
    | cons d ds =>
      rw [isPrefixL] at h
      obtain ⟨h1, h2⟩ := Bool.and_eq_true_iff.mp h
      show isPrefixL (c :: cs) (d :: (ds ++ t)) = true
      rw [isPrefixL, h1, ih ds t h2]
      rfl

theorem containsSubL_of_isPrefixL (pat l : List Char) (h : isPrefixL pat l = true) :
    containsSubL pat l = true := by
  cases l with
  | nil => exact h
  | cons c rest => rw [containsSubL, h]; rfl

theorem missingCredsMsg_includes (service : String) (missing : List String) :
    strIncludes (missingCredsMsg service missing) "Missing credentials" = true := by
  rw [strIncludes]
  apply containsSubL_of_isPrefixL
  have hdecomp : (missingCredsMsg service missing).toList
      = "Missing credentials for ".toList ++
        (service ++ ":\n" ++ "Required: " ++ joinComma missing ++ "\n" ++
          "Please provide these credentials when initializing the bot.").toList := by
    simp [missingCredsMsg, String.data_append, List.append_assoc]
  rw [hdecomp]
  exact isPrefixL_append_of_isPrefixL _ _ _ (by decide)

theorem resolveAuthHeaders_error_includes
    (serviceCredentials : List (String × List (String × String)))
    (service : String) (authConfig : Option AuthDescr) (e : String)
    (h : resolveAuthHeaders serviceCredentials service authConfig = Except.error e) :
    strIncludes e "Missing credentials" = true := by
  cases authConfig with
  | none => cases h
  | some cfg =>
    rw [resolveAuthHeaders] at h
    split at h
    · cases h
    · split at h
      · cases h
      · rename_i authOption rest heq
        simp only at h
        split at h
        · cases h
        · cases h
          exact missingCredsMsg_includes _ _

theorem wrapExecError_credential (actionId service msg : String)
    (h : strIncludes msg "Missing credentials" = true) :
    wrapExecError actionId service msg = msg := by
  rw [wrapExecError, if_pos h]

theorem resolveOneParam_id (k : String) (v : Value) (outputs : List (String × Value))
    (h : isOutputRef v = false) : resolveOneParam k v outputs = Except.ok v := by
  cases v with
  | str s =>
    rw [isOutputRef] at h
    rw [resolveOneParam, if_neg (by simp [h])]
  | null => rfl
  | bool b => rfl
  | num n => rfl
  | arr vs => rfl
  | obj fs => rfl

theorem resolveParameters_id (parameters outputs : List (String × Value))
    (h : ∀ kv ∈ parameters, isOutputRef kv.2 = false) :
    resolveParameters parameters outputs = Except.ok parameters := by
  induction parameters with
  | nil => rfl
  | cons kv rest ih =>
    obtain ⟨k, v⟩ := kv
    have hone : resolveOneParam k v outputs = Except.ok v :=
      resolveOneParam_id k v outputs (h (k, v) (List.mem_cons_self _ _))
    have hrest : resolveParameters rest outputs = Except.ok rest :=
      ih (fun kv' hkv' => h kv' (List.mem_cons_of_mem _ hkv'))
    rw [resolveParameters, hone, hrest]

theorem resolveParameters_missing (k ref key : String) (restPath : List String)
    (outputs : List (String × Value))
    (href : strStartsWith ref outRefPrefix = true)
    (hsplit : splitPath (strDropL ref 9) = key :: restPath)
    (hmiss : alookup key outputs = none) :
    resolveParameters [(k, Value.str ref)] outputs
      = Except.error (missingOutputMsg k key) := by
  simp [resolveParameters, resolveOneParam, href, hsplit, hmiss]

theorem resolveParameters_falsy (k ref key : String) (restPath : List String)
    (outputs : List (String × Value)) (v : Value)
    (href : strStartsWith ref outRefPrefix = true)
    (hsplit : splitPath (strDropL ref 9) = key :: restPath)
    (hfound : alookup key outputs = some v)
    (hfalsy : jsTruthy v = false) :
    resolveParameters [(k, Value.str ref)] outputs
      = Except.error (missingOutputMsg k key) := by
  simp [resolveParameters, resolveOneParam, href, hsplit, hfound, hfalsy]

theorem utilsRun_cycle_aux : ∀ fuel : Nat,
    (∀ (sorted : List PlanAction) (k : List VisitFrame),
      utilsRun cycMap fuel [] sorted (VisitFrame.visit cycActionA :: k) = none) ∧
    (∀ (sorted : List PlanAction) (k : List VisitFrame),
      utilsRun cycMap fuel [] sorted (VisitFrame.visit cycActionB :: k) = none) := by
  intro fuel
  induction fuel with
  | zero => exact ⟨fun _ _ => rfl, fun _ _ => rfl⟩
  | succ n ih =>
    refine ⟨fun sorted k => ?_, fun sorted k => ?_⟩
    · have hstep : utilsRun cycMap (n + 1) [] sorted (VisitFrame.visit cycActionA :: k)
          = utilsRun cycMap n [] sorted
              (VisitFrame.visit cycActionB :: (VisitFrame.finish cycActionA :: k)) := rfl
      rw [hstep]
      exact ih.2 sorted _
    · have hstep : utilsRun cycMap (n + 1) [] sorted (VisitFrame.visit cycActionB :: k)
          = utilsRun cycMap n [] sorted
              (VisitFrame.visit cycActionA :: (VisitFrame.finish cycActionB :: k)) := rfl
      rw [hstep]
      exact ih.1 sorted _

theorem keyCyc_hasBlocked : HasBlocked [keyCycActionA, keyCycActionB] := by
  refine ⟨[keyCycActionA, keyCycActionB], by simp, fun a ha => ha, ?_⟩
  intro a ha
  rcases List.mem_cons.mp ha with rfl | ha'
  · exact ⟨"kb", by simp [depsList, keyCycActionA], fun b _ _ => by
      rcases List.mem_cons.mp ‹b ∈ [keyCycActionA, keyCycActionB]› with rfl | h'
      · exact List.mem_cons_self _ _
      · exact List.mem_cons_of_mem _ h'⟩
  · rcases List.mem_cons.mp ha' with rfl | ha''
    · exact ⟨"ka", by simp [depsList, keyCycActionB], fun b _ _ => by
        rcases List.mem_cons.mp ‹b ∈ [keyCycActionA, keyCycActionB]› with rfl | h'
        · exact List.mem_cons_self _ _
        · exact List.mem_cons_of_mem _ h'⟩
    · cases ha''

/-- C1: the claim is refuted at its own input.  Running the engine on the
spec's exact plan (`use` declaring `dependsOn: ["fetch"]`, the action
id) does not execute `fetch` before `use`: the linearizer matches
dependencies against *output keys*, `"fetch"` is never in the available
set `{"k1"}`, and the run aborts with the circular-dependency error
before executing anything. -/
theorem c1_counterexample :
    stepMsg (executePlan envC1 [fetchAction, useAction] [] []) = some cycleMsg ∧
    (stepState (executePlan envC1 [fetchAction, useAction] [] [])).trace = [] :=
  ⟨rfl, rfl⟩

/-- C1 (amended): with `dependsOn` naming the output key `k1` (the
convention the engine implements), the run completes with no cycle error
and no missing-dependency error, `fetch` executes before `use`, and
`use` is invoked with resolved parameters `{"v": 7}`. -/
theorem c1_amended :
    stepMsg (executePlan envC1 [fetchAction, useActionKeyDep] [] []) = none ∧
    (stepState (executePlan envC1 [fetchAction, useActionKeyDep] [] [])).trace
      = [("fetch", [], 1), ("use", [("v", Value.num 7)], 1)] ∧
    (stepState (executePlan envC1 [fetchAction, useActionKeyDep] [] [])).results
      = [{ id := "fetch", success := true,
           result := some (Value.obj [("total", Value.num 7)]), error := none },
         { id := "use", success := true,
           result := some (Value.str "done"), error := none }] :=
  ⟨rfl, rfl, rfl⟩

/-- C3: the claim is false for the recursive linearizer in `utils.ts`,
one of its subjects: on the two-action dependency cycle `a ↔ b` the
`visit` recursion never terminates (no step budget suffices), so no
cycle error is ever reported. -/
theorem c3_counterexample : UtilsReorderDiverges [cycActionA, cycActionB] :=
  fun fuel => (utilsRun_cycle_aux fuel).1 [] [VisitFrame.visit cycActionB]

/-- C3 (amended): for the iterative linearizer in `index.ts` (the one
`executePlan` uses), every plan with a blocked subset under output-key
dependency matching — in particular every dependency cycle — makes
`reorderActionPlan` report the circular-dependency error; a successful
linearization is a permutation of the plan (no action is silently
dropped); and a linearizer error makes `executePlan` throw before any
action is executed (empty trace).  The recursive variant in `utils.ts`,
by contrast, recurses forever on a cycle. -/
theorem c3_amended :
    ∀ plan : List PlanAction,
      (HasBlocked plan → reorderActionPlan plan = Except.error cycleMsg) ∧
      (∀ out, reorderActionPlan plan = Except.ok out → out.Perm plan) ∧
      (∀ (env : EngineEnv) (completed0 : List (String × CompletedRec))
         (oracle : List Decision),
        reorderActionPlan plan = Except.error cycleMsg →
        executePlan env plan completed0 oracle
            = StepRes.fatal cycleMsg (initSt completed0 oracle) ∧
          (initSt completed0 oracle).trace = []) := by
  intro plan
  refine ⟨reorder_blocked_error plan, fun out h => (reorder_ok_spec plan out h).1, ?_⟩
  intro env completed0 oracle herr
  constructor
  · rw [executePlan, herr]
  · rfl

/-- C3 witness: the key-based two-action cycle is blocked, the iterative
linearizer reports the cycle error on it, and the engine executes
nothing. -/
theorem c3_witness :
    reorderActionPlan [keyCycActionA, keyCycActionB] = Except.error cycleMsg ∧
    executePlan envC1 [keyCycActionA, keyCycActionB] [] []
        = StepRes.fatal cycleMsg (initSt [] []) ∧
    (initSt [] ([] : List Decision)).trace = [] := by
  have h1 := (c3_amended [keyCycActionA, keyCycActionB]).1 keyCyc_hasBlocked
  have h2 := (c3_amended [keyCycActionA, keyCycActionB]).2.2 envC1 [] [] h1
  exact ⟨h1, h2.1, h2.2⟩

/-- C7: the claim is refuted at a concrete acyclic plan.  The spec's
end-to-end plan has an acyclic dependency graph under any reading
(`use` depends on `fetch`, nothing depends on `use`), yet the linearizer
raises the cycle error instead of returning a permutation, because the
dependency `"fetch"` is matched against output keys and no action
provides an output key `"fetch"`. -/
theorem c7_counterexample :
    reorderActionPlan [fetchAction, useAction] = Except.error cycleMsg := rfl

/-- C7 (amended): dependencies are matched against output keys, and a
dependency key with no in-plan provider also triggers the cycle error.
For every plan with no blocked subset, the linearizer returns a
permutation of the submitted actions in which every action's dependency
keys are provided by earlier actions, and (for duplicate-free plans) any
two actions `a` before `b` in submission order with `a`'s dependency-key
set contained in `b`'s — in particular any two equally-eligible actions —
keep their original relative order. -/
theorem c7_amended :
    ∀ plan : List PlanAction, ¬HasBlocked plan →
      ∃ out, reorderActionPlan plan = Except.ok out ∧ out.Perm plan ∧
        SatisfiedFrom [] out ∧
        (plan.Nodup → ∀ a b, [a, b].Sublist plan →
          (∀ d, d ∈ depsList a → d ∈ depsList b) → [a, b].Sublist out) := by
  intro plan hnb
  rcases reorderAux_shape plan.length plan [] with ⟨out, hout⟩ | herr
  · obtain ⟨hperm, hsat⟩ := reorderAux_ok_spec plan.length plan [] out le_rfl hout
    refine ⟨out, hout, hperm, hsat, ?_⟩
    intro hnd a b hab hdeps
    exact reorderAux_tiebreak plan.length plan [] out a b le_rfl hnd hout hab hdeps
  · exact absurd (reorder_error_hasBlocked plan cycleMsg herr) hnb

/-- C7 witness: the repaired end-to-end plan (dependency naming the
output key) is not blocked, and the linearizer orders it. -/
theorem c7_witness :
    ∃ out, reorderActionPlan [fetchAction, useActionKeyDep] = Except.ok out ∧
      out.Perm [fetchAction, useActionKeyDep] ∧ SatisfiedFrom [] out ∧
      (List.Nodup [fetchAction, useActionKeyDep] → ∀ a b,
        [a, b].Sublist [fetchAction, useActionKeyDep] →
        (∀ d, d ∈ depsList a → d ∈ depsList b) → [a, b].Sublist out) := by
  apply c7_amended
  intro hb
  have h := reorder_blocked_error _ hb
  rw [show reorderActionPlan [fetchAction, useActionKeyDep]
      = Except.ok [fetchAction, useActionKeyDep] from rfl] at h
  cases h

/-- C5: `resolveParameters` is the identity on maps with no value that is
a string starting with `$outputs.` (nested objects and arrays pass
through untouched); `{"x": "$outputs.a.b[0]"}` against
`{a: {b: [42, 43]}}` resolves to `{"x": 42}`; a reference whose first
path segment misses the output store raises the `missing required
output` error naming the parameter key; and a reference whose remaining
path reaches an undefined value raises the `invalid path` error naming
the parameter key. -/
theorem c5_resolve_roundtrip :
    (∀ (parameters outputs : List (String × Value)),
      (∀ kv ∈ parameters, isOutputRef kv.2 = false) →
      resolveParameters parameters outputs = Except.ok parameters) ∧
    resolveParameters [("x", Value.str "$outputs.a.b[0]")]
        [("a", Value.obj [("b", Value.arr [Value.num 42, Value.num 43])])]
      = Except.ok [("x", Value.num 42)] ∧
    (∀ (k ref key : String) (restPath : List String)
       (outputs : List (String × Value)),
      strStartsWith ref outRefPrefix = true →
      splitPath (strDropL ref 9) = key :: restPath →
      alookup key outputs = none →
      resolveParameters [(k, Value.str ref)] outputs
        = Except.error
            ("Cannot resolve parameter " ++ k ++ ": missing required output " ++ key)) ∧
    resolveParameters [("x", Value.str "$outputs.a.b[5]")]
        [("a", Value.obj [("b", Value.arr [Value.num 42, Value.num 43])])]
      = Except.error ("Cannot resolve parameter x: invalid path $outputs.a.b[5]") := by
  refine ⟨resolveParameters_id, rfl, ?_, rfl⟩
  intro k ref key restPath outputs h1 h2 h3
  exact resolveParameters_missing k ref key restPath outputs h1 h2 h3

/-- C5 witness: concrete instances of the quantified parts. -/
theorem c5_witness :
    resolveParameters [("y", Value.num 5), ("z", Value.obj [("q", Value.str "lit")])] []
      = Except.ok [("y", Value.num 5), ("z", Value.obj [("q", Value.str "lit")])] ∧
    resolveParameters [("x", Value.str "$outputs.zzz")] []
      = Except.error ("Cannot resolve parameter x: missing required output zzz") := by
  constructor
  · apply c5_resolve_roundtrip.1
    intro kv hkv
    rcases List.mem_cons.mp hkv with rfl | h'
    · rfl
    · rcases List.mem_cons.mp h' with rfl | h''
      · rfl
      · cases h''
  · exact c5_resolve_roundtrip.2.2.1 "x" "$outputs.zzz" "zzz" [] [] rfl rfl rfl

/-- C10: the truthiness guard `if (!outputValue)` of `resolveParameters`
makes a present-but-falsy stored output (`0`, `false`, `""`, `null`)
indistinguishable from an absent one: both raise the same `missing
required output` error.  Consequently a successful action whose
published result is falsy cannot be referenced: the engine run below
publishes `0` under `k1` and then aborts resolving `$outputs.k1`, even
though the dependency check on `k1` itself passed. -/
theorem c10_falsy_output :
    (∀ (k ref key : String) (restPath : List String)
       (outputs : List (String × Value)) (v : Value),
      strStartsWith ref outRefPrefix = true →
      splitPath (strDropL ref 9) = key :: restPath →
      alookup key outputs = some v → jsTruthy v = false →
      resolveParameters [(k, Value.str ref)] outputs
        = Except.error
            ("Cannot resolve parameter " ++ k ++ ": missing required output " ++ key)) ∧
    (∀ (k ref key : String) (restPath : List String)
       (outputs : List (String × Value)),
      strStartsWith ref outRefPrefix = true →
      splitPath (strDropL ref 9) = key :: restPath →
      alookup key outputs = none →
      resolveParameters [(k, Value.str ref)] outputs
        = Except.error
            ("Cannot resolve parameter " ++ k ++ ": missing required output " ++ key)) ∧
    stepMsg (executePlan envZero [fetchAction, useZeroAction] [] [])
      = some ("Cannot resolve parameter v: missing required output k1") ∧
    (stepState (executePlan envZero [fetchAction, useZeroAction] [] [])).results
      = [{ id := "fetch", success := true, result := some (Value.num 0), error := none }] := by
  refine ⟨?_, ?_, rfl, rfl⟩
  · intro k ref key restPath outputs v h1 h2 h3 h4
    exact resolveParameters_falsy k ref key restPath outputs v h1 h2 h3 h4
  · intro k ref key restPath outputs h1 h2 h3
    exact resolveParameters_missing k ref key restPath outputs h1 h2 h3

/-- C10 witness: a stored `0`, a stored `false`, a stored `""` and an
absent key all produce the identical error. -/
theorem c10_witness :
    resolveParameters [("x", Value.str "$outputs.kk")] [("kk", Value.num 0)]
      = Except.error ("Cannot resolve parameter x: missing required output kk") ∧
    resolveParameters [("x", Value.str "$outputs.kk")] [("kk", Value.bool false)]
      = Except.error ("Cannot resolve parameter x: missing required output kk") ∧
    resolveParameters [("x", Value.str "$outputs.kk")] [("kk", Value.str "")]
      = Except.error ("Cannot resolve parameter x: missing required output kk") ∧
    resolveParameters [("x", Value.str "$outputs.kk")] []
      = Except.error ("Cannot resolve parameter x: missing required output kk") := by
  refine ⟨?_, ?_, ?_, ?_⟩
  · exact c10_falsy_output.1 "x" "$outputs.kk" "kk" [] _ _ rfl rfl rfl rfl
  · exact c10_falsy_output.1 "x" "$outputs.kk" "kk" [] _ _ rfl rfl rfl rfl
  · exact c10_falsy_output.1 "x" "$outputs.kk" "kk" [] _ _ rfl rfl rfl rfl
  · exact c10_falsy_output.2.1 "x" "$outputs.kk" "kk" [] _ rfl rfl rfl

/-- C2: the claim is refuted.  A genuine credential error (the exact
message `resolveAuthHeaders` throws) reaching the retry loop is
re-attempted: three attempts are made and the escalation decision is
consumed (the oracle script shrinks from one entry to none), because the
loop in `executePlan` treats every thrown error alike. -/
theorem c2_counterexample :
    resolveAuthHeaders [] "svc" (some authHeaderCfg) = Except.error credMsgX ∧
    runRetry (fun _ => ExecOutcome.err credMsgX) [Decision.cont] 0
      = (RetryOutcome.failed credMsgX, 3, []) :=
  ⟨rfl, rfl⟩

/-- C2 (amended): a credential error does pass *unmodified* through
`executeAction`'s error rewriting (any message containing `Missing
credentials` is rethrown as-is, and every `resolveAuthHeaders` error is
such a message), but the retry layer treats it like any other failure:
it is attempted the full 3 times and then escalated to the oracle. -/
theorem c2_amended :
    (∀ actionId service msg, strIncludes msg "Missing credentials" = true →
      wrapExecError actionId service msg = msg) ∧
    (∀ (serviceCredentials : List (String × List (String × String)))
       (service : String) (authConfig : Option AuthDescr) (e : String),
      resolveAuthHeaders serviceCredentials service authConfig = Except.error e →
      ∀ actionId sname, wrapExecError actionId sname e = e) ∧
    (∀ m, runRetry (fun _ => ExecOutcome.err m) [Decision.cont] 0
      = (RetryOutcome.failed m, 3, [])) := by
  refine ⟨wrapExecError_credential, ?_, ?_⟩
  · intro sc service cfg e he actionId sname
    exact wrapExecError_credential _ _ _
      (resolveAuthHeaders_error_includes sc service cfg e he)
  · intro m
    simp [runRetry, attempt3]

/-- C2 witness: the concrete credential error is propagated unmodified
by the wrapper, and a failing action consumes an escalation decision. -/
theorem c2_witness :
    wrapExecError "act" "svc" credMsgX = credMsgX ∧
    runRetry (fun _ => ExecOutcome.err "boom") [Decision.cont] 0
      = (RetryOutcome.failed "boom", 3, []) := by
  constructor
  · exact c2_amended.2.1 [] "svc" (some authHeaderCfg) credMsgX rfl "act" "svc"
  · exact c2_amended.2.2 "boom"

/-- C4: the retry loop makes at most 3 attempts before escalating — an
action failing twice then succeeding yields a success with retry count 2
after exactly 3 attempts, with no oracle consultation; after 3 straight
failures the oracle is consulted at exactly 3 attempts; decision `stop`
raises the fatal error and aborts the run with the next action never
executed; decision `continue` records a failure, writes no output, and
execution proceeds to the next action; decision `retry` resets the
counter to 0 and a fourth attempt is observable. -/
theorem c4_retry_escalation :
    (∀ (exec : Nat → ExecOutcome) (oracle : List Decision) (e0 e1 : String) (v : Value),
      exec 0 = ExecOutcome.err e0 → exec 1 = ExecOutcome.err e1 →
      exec 2 = ExecOutcome.ok v →
      runRetry exec oracle 0 = (RetryOutcome.success v 2, 3, oracle)) ∧
    (∀ (exec : Nat → ExecOutcome) (e0 e1 e2 reason : String) (rest : List Decision),
      exec 0 = ExecOutcome.err e0 → exec 1 = ExecOutcome.err e1 →
      exec 2 = ExecOutcome.err e2 →
      runRetry exec (Decision.stop reason :: rest) 0
        = (RetryOutcome.fatal e2 reason, 3, rest)) ∧
    (stepMsg (executePlan envFailA [actFailA, actPlainB] [] [Decision.stop "bad"])
        = some (fatalActionMsg "A" "boom" "bad") ∧
      (stepState (executePlan envFailA [actFailA, actPlainB] [] [Decision.stop "bad"])).trace
        = [("A", [], 3)]) ∧
    (stepMsg (executePlan envFailA [actFailA, actPlainB] [] [Decision.cont]) = none ∧
      (stepState (executePlan envFailA [actFailA, actPlainB] [] [Decision.cont])).results
        = [{ id := "A", success := false, result := none, error := some "boom" },
           { id := "B", success := true, result := some (Value.str "okB"), error := none }] ∧
      alookup "k"
        (stepState (executePlan envFailA [actFailA, actPlainB] [] [Decision.cont])).outputs
        = none ∧
      (stepState (executePlan envFailA [actFailA, actPlainB] [] [Decision.cont])).trace
        = [("A", [], 3), ("B", [], 1)]) ∧
    runRetry (fun n => if n < 3 then ExecOutcome.err "boom" else ExecOutcome.ok (Value.num 1))
        [Decision.retry] 0
      = (RetryOutcome.success (Value.num 1) 0, 4, []) := by
  refine ⟨?_, ?_, ⟨rfl, rfl⟩, ⟨rfl, rfl, rfl, rfl⟩, rfl⟩
  · intro exec oracle e0 e1 v h0 h1 h2
    have ha : attempt3 exec 0 = Sum.inl (v, 2) := by simp [attempt3, h0, h1, h2]
    cases oracle with
    | nil => simp [runRetry, ha]
    | cons d rest => simp [runRetry, ha]
  · intro exec e0 e1 e2 reason rest h0 h1 h2
    have ha : attempt3 exec 0 = Sum.inr e2 := by simp [attempt3, h0, h1, h2]
    simp [runRetry, ha]

/-- C4 witness: concrete instances of the two quantified parts. -/
theorem c4_witness :
    runRetry (fun n => if n < 2 then ExecOutcome.err "e" else ExecOutcome.ok (Value.num 9)) [] 0
      = (RetryOutcome.success (Value.num 9) 2, 3, []) ∧
    runRetry (fun _ => ExecOutcome.err "boom") [Decision.stop "why"] 0
      = (RetryOutcome.fatal "boom" "why", 3, []) := by
  constructor
  · exact c4_retry_escalation.1 _ [] "e" "e" (Value.num 9) rfl rfl rfl
  · exact c4_retry_escalation.2.1 _ "boom" "boom" "boom" "why" [] rfl rfl rfl

/-- C6: capability resolution tries native manifest, then the
aiwe.cloud registry, then the community-bridge table, falling through
exactly when the previous tier's fetch fails or its body is invalid;
the succeeding tier is recorded for the service; only when all three
tiers fail does it raise the no-integration error naming the service. -/
theorem c6_tier_fallthrough :
    ∀ (env : FetchEnv) (s : String),
      (∀ cfg, env.officialFetch s = some cfg → isValidAIWEConfig cfg = true →
        getAIWEConfig env s = Except.ok (cfg, Tier.official)) ∧
      (tierFails (env.officialFetch s) →
        ∀ cfg, env.cloudFetch s = some cfg → isValidAIWEConfig cfg = true →
        getAIWEConfig env s = Except.ok (cfg, Tier.aiweCloud)) ∧
      (tierFails (env.officialFetch s) → tierFails (env.cloudFetch s) →
        ∀ cfg, env.bridges s = some cfg →
        getAIWEConfig env s = Except.ok (cfg, Tier.bridge)) ∧
      (tierFails (env.officialFetch s) → tierFails (env.cloudFetch s) →
        env.bridges s = none →
        getAIWEConfig env s = Except.error ("No AIWE integration available for " ++ s)) := by
  intro env s
  have hofficial : tierFails (env.officialFetch s) →
      getAIWEConfig env s = getAIWEConfigCloud env s := by
    intro h
    cases hc : env.officialFetch s with
    | none => simp [getAIWEConfig, hc]
    | some c => simp [getAIWEConfig, hc, h c hc]
  have hcloud : tierFails (env.cloudFetch s) →
      getAIWEConfigCloud env s = getAIWEConfigBridge env s := by
    intro h
    cases hc : env.cloudFetch s with
    | none => simp [getAIWEConfigCloud, hc]
    | some c => simp [getAIWEConfigCloud, hc, h c hc]
  refine ⟨?_, ?_, ?_, ?_⟩
  · intro cfg hf hv
    simp [getAIWEConfig, hf, hv]
  · intro h1 cfg hc hv
    rw [hofficial h1]
    simp [getAIWEConfigCloud, hc, hv]
  · intro h1 h2 cfg hb
    rw [hofficial h1, hcloud h2]
    simp [getAIWEConfigBridge, hb]
  · intro h1 h2 hb
    rw [hofficial h1, hcloud h2]
    simp [getAIWEConfigBridge, hb, noIntegrationMsg]

/-- C6 witness: with both remote tiers failing, `svc` resolves through
the bridge tier and an unknown service raises the no-integration
error. -/
theorem c6_witness :
    getAIWEConfig envTierW "svc" = Except.ok (bridgeCfgW, Tier.bridge) ∧
    getAIWEConfig envTierW "nope"
      = Except.error ("No AIWE integration available for " ++ "nope") := by
  constructor
  · exact (c6_tier_fallthrough envTierW "svc").2.2.1
      (fun c h => Option.noConfusion h) (fun c h => Option.noConfusion h) bridgeCfgW rfl
  · exact (c6_tier_fallthrough envTierW "nope").2.2.2
      (fun c h => Option.noConfusion h) (fun c h => Option.noConfusion h) rfl

/-- C8: the claim is refuted at a concrete input.  With the required
header `x-api-key` *present* in the service's configured credentials but
bound to the empty string, nothing is absent, yet `resolveAuthHeaders`
raises the credential error instead of returning the declared header:
the missing-check is `!savedCredentials[key]`, which also fires on the
falsy empty string. -/
theorem c8_counterexample :
    resolveAuthHeaders [("svc", [("x-api-key", "")])] "svc" (some authHeaderCfg)
      = Except.error (missingCredsMsg "svc" ["x-api-key"]) ∧
    resolveAuthHeaders [("svc", [("x-api-key", "")])] "svc" (some authHeaderCfg)
      ≠ Except.ok [("x-api-key", "")] := by
  refine ⟨rfl, ?_⟩
  intro h
  rw [show resolveAuthHeaders [("svc", [("x-api-key", "")])] "svc" (some authHeaderCfg)
      = Except.error (missingCredsMsg "svc" ["x-api-key"]) from rfl] at h
  cases h

/-- C8 (amended): header resolution returns an empty map when no
header-type authentication (or no options) is declared; otherwise it
takes the first option and treats a required header name as missing when
it is absent *or bound to a falsy (empty) string*, raising a credential
error listing exactly those names; on success it returns exactly the
declared header names bound to the stored credentials, never any other
stored key. -/
theorem c8_auth_headers :
    ∀ (creds : List (String × List (String × String))) (service : String),
      resolveAuthHeaders creds service none = Except.ok [] ∧
      (∀ cfg : AuthDescr, cfg.type ≠ "header" →
        resolveAuthHeaders creds service (some cfg) = Except.ok []) ∧
      (∀ t, resolveAuthHeaders creds service (some { type := t, options := [] })
        = Except.ok []) ∧
      (∀ (name : String) (required : List (String × String)) (opts : List AuthOption)
         (missing : List String),
        (required.map Prod.fst).filter
            (fun key => credFalsy (aget key ((aget service creds).getD []))) = missing →
        (missing ≠ [] →
          resolveAuthHeaders creds service
              (some { type := "header",
                      options := { name := name, headers := some required } :: opts })
            = Except.error (missingCredsMsg service missing)) ∧
        (missing = [] →
          resolveAuthHeaders creds service
              (some { type := "header",
                      options := { name := name, headers := some required } :: opts })
            = Except.ok (required.map
                (fun kv => (kv.1, (aget kv.1 ((aget service creds).getD [])).getD ""))) ∧
          (required.map
              (fun kv => (kv.1, (aget kv.1 ((aget service creds).getD [])).getD ""))).map
              Prod.fst
            = required.map Prod.fst)) := by
  intro creds service
  refine ⟨rfl, ?_, ?_, ?_⟩
  · intro cfg hne
    have hb : (cfg.type == "" || cfg.type != "header" || cfg.options.isEmpty) = true := by
      have h2 : (cfg.type != "header") = true := bne_iff_ne.mpr hne
      rw [h2]
      simp
    rw [resolveAuthHeaders, if_pos hb]
  · intro t
    have hb : (t == "" || t != "header" ||
        (List.isEmpty ([] : List AuthOption))) = true := by simp
    rw [resolveAuthHeaders, if_pos hb]
  · intro name required opts missing hfilter
    constructor
    · intro hne
      rw [resolveAuthHeaders, if_neg (by simp)]
      simp only [Option.getD_some]
      rw [hfilter]
      rw [if_neg (by simp [List.isEmpty_iff, hne])]
    · intro hnil
      constructor
      · rw [resolveAuthHeaders, if_neg (by simp)]
        simp only [Option.getD_some]
        rw [hfilter]
        rw [if_pos (by simp [hnil])]
      · simp [List.map_map, Function.comp]

/-- C8 witness: the configured credential is forwarded under exactly the
declared header name (the unrelated stored key is not), and an absent
credential yields the error listing exactly the missing name. -/
theorem c8_witness :
    resolveAuthHeaders credsW "svc" (some authHeaderCfg)
      = Except.ok [("x-api-key", "k123")] ∧
    resolveAuthHeaders [] "svc" (some authHeaderCfg)
      = Except.error (missingCredsMsg "svc" ["x-api-key"]) := by
  constructor
  · exact ((c8_auth_headers credsW "svc").2.2.2 "default" [("x-api-key", "string")] []
      [] rfl).2 rfl |>.1
  · exact ((c8_auth_headers [] "svc").2.2.2 "default" [("x-api-key", "string")] []
      ["x-api-key"] rfl).1 (by simp)

/-- C9: an already-completed action with `alwaysExecute` unset is
skipped — no backend execution, completed record (result and timestamp)
untouched, ledger untouched — and its recorded result is published
under its output key for later actions; with `alwaysExecute` set and a
successful execution, the action runs again and its completed record is
overwritten with the new result and the current clock.  The concrete run
shows the later action `B` consuming the republished result `9` while
`A`'s record keeps timestamp 42. -/
theorem c9_skip_if_completed :
    (∀ (env : EngineEnv) (st : EngineSt) (a : PlanAction) (prev : CompletedRec),
      aget a.id st.completed = some prev → a.alwaysExecute = false →
      ∃ st', stepAction env st a = StepRes.ok st' ∧
        st'.trace = st.trace ∧ st'.completed = st.completed ∧
        st'.results = st.results ∧
        st'.outputs = writeOutput a prev.result st.outputs ∧
        ∀ key, a.outputKey = some key → (key == "") = false →
          alookup key st'.outputs = some prev.result) ∧
    (∀ (env : EngineEnv) (st : EngineSt) (a : PlanAction) (prev : CompletedRec)
       (params : List (String × Value)) (v : Value),
      aget a.id st.completed = some prev → a.alwaysExecute = true →
      a.dependsOn = none →
      resolveParameters a.parameters st.outputs = Except.ok params →
      elemStr a.website env.configs = true →
      env.exec a.id params 0 = ExecOutcome.ok v →
      ∃ st', stepAction env st a = StepRes.ok st' ∧
        st'.trace = st.trace ++ [(a.id, params, 1)] ∧
        aget a.id st'.completed
          = some { website := a.website, result := v, timestamp := env.now }) ∧
    (stepMsg (executePlan envC9 [skipActionA, consumeActionB] completedC9 []) = none ∧
      (stepState (executePlan envC9 [skipActionA, consumeActionB] completedC9 [])).trace
        = [("B", [("v", Value.num 9)], 1)] ∧
      aget "A"
        (stepState (executePlan envC9 [skipActionA, consumeActionB] completedC9 [])).completed
        = some { website := "svc", result := Value.num 9, timestamp := 42 }) := by
  refine ⟨?_, ?_, rfl, rfl, rfl⟩
  · intro env st a prev hprev halways
    refine ⟨{ st with outputs := writeOutput a prev.result st.outputs },
      ?_, rfl, rfl, rfl, rfl, ?_⟩
    · simp [stepAction, hprev, halways]
    · intro key hkey hkne
      show alookup key (writeOutput a prev.result st.outputs) = some prev.result
      simp only [writeOutput, hkey, hkne, Bool.false_eq_true, if_false]
      exact alookup_mset_self key prev.result st.outputs
  · intro env st a prev params v hprev halways hdeps hres hcfg hexec
    have hretry : runRetry (env.exec a.id params) st.oracle 0
        = (RetryOutcome.success v 0, 1, st.oracle) := by
      have ha : attempt3 (env.exec a.id params) 0 = Sum.inl (v, 0) := by
        simp [attempt3, hexec]
      cases hor : st.oracle with
      | nil => simp [runRetry, ha]
      | cons d rest => simp [runRetry, ha]
    refine ⟨{ outputs := writeOutput a v st.outputs
              completed := aset a.id
                { website := a.website, result := v, timestamp := env.now } st.completed
              results := st.results ++
                [{ id := a.id, success := true, result := some v, error := none }]
              oracle := st.oracle
              trace := st.trace ++ [(a.id, params, 1)] }, ?_, rfl, ?_⟩
    · simp [stepAction, hprev, halways, execFresh, firstMissingDep, hdeps, hres,
        hcfg, hretry]
    · show aget a.id (aset a.id
        { website := a.website, result := v, timestamp := env.now } st.completed)
        = _
      exact aget_aset_self _ _ _

/-- C9 witness: concrete skip of the completed `A` (record untouched,
result republished) and concrete forced re-execution (record
overwritten with the new result and clock). -/
theorem c9_witness :
    (∃ st', stepAction envC9 (initSt completedC9 []) skipActionA = StepRes.ok st' ∧
      st'.trace = (initSt completedC9 []).trace ∧
      st'.completed = (initSt completedC9 []).completed ∧
      st'.results = (initSt completedC9 []).results ∧
      st'.outputs = writeOutput skipActionA (Value.num 9) (initSt completedC9 []).outputs ∧
      ∀ key, skipActionA.outputKey = some key → (key == "") = false →
        alookup key st'.outputs = some (Value.num 9)) ∧
    (∃ st', stepAction envC9 (initSt completedC9 []) forceActionA = StepRes.ok st' ∧
      st'.trace = (initSt completedC9 []).trace ++ [("A", [], 1)] ∧
      aget "A" st'.completed
        = some { website := "svc", result := Value.str "fresh", timestamp := 77 }) := by
  constructor
  · exact c9_skip_if_completed.1 envC9 (initSt completedC9 []) skipActionA
      { website := "svc", result := Value.num 9, timestamp := 42 } rfl rfl
  · exact c9_skip_if_completed.2.1 envC9 (initSt completedC9 []) forceActionA
      { website := "svc", result := Value.num 9, timestamp := 42 }
      [] (Value.str "fresh") rfl rfl rfl rfl rfl rfl
